import Mathlib

/-!
Verification development for the SST sentiment-classification script
(src/assignment4/assign4.py).  The data model and the pure parts of the
pipeline (sentiment bucketing, the dictionary loader, vocabulary
construction, embedding loading with its cache, the batch iterators and
the checkpoint decision of the training loop) are shallowly embedded
below; the theorems at the end of the file settle the specification
claims about them.

Python strings are modelled as lists of characters, floats as rationals,
dictionaries keyed by insertion order as association lists with
in-place update, and fatal exceptions as an Except result.
-/

/-- Python strings are modelled as lists of characters. -/
abbrev Str := List Char

/-- PAD_TOKEN constant of assign4.py. -/
def PAD_TOKEN : Str := "_PAD_".toList

/-- UNK_TOKEN constant of assign4.py. -/
def UNK_TOKEN : Str := "_UNK_".toList

/-- sentiment2label (assign4.py lines 59-71): bucket a sentiment score
into one of five labels; any score outside the five branches raises
ValueError, modelled as none.  Floats are modelled as rationals. -/
def sentiment2label (x : ℚ) : Option Nat :=
  if 0 ≤ x ∧ x ≤ 2/10 then some 0
  else if 2/10 < x ∧ x ≤ 4/10 then some 1
  else if 4/10 < x ∧ x ≤ 6/10 then some 2
  else if 6/10 < x ∧ x ≤ 8/10 then some 3
  else if 8/10 < x ∧ x ≤ 1 then some 4
  else none

/-- An example record of the data loader.  The token field starts as a
list of token strings and becomes a list of integer ids after
conversion, hence the type parameter. -/
structure Example (τ : Type) where
  phrase : Str
  tokens : List τ
  example_id : Str
  label : Option Nat
deriving DecidableEq

instance {τ : Type} : Inhabited (Example τ) := ⟨⟨[], [], [], none⟩⟩

/-- Replacement text for a left parenthesis (note the missing trailing
dash, exactly as in the source). -/
def LRB_TOKEN : Str := "-LRB".toList

/-- Replacement text for a right parenthesis. -/
def RRB_TOKEN : Str := "-RRB-".toList

/-- Python str.replace with a single-character needle replaces every
occurrence of that character by the replacement text. -/
def replaceChar (s : Str) (c : Char) (r : Str) : Str :=
  s.flatMap (fun a => if a = c then r else [a])

/-- The escaping applied to each dictionary phrase (assign4.py line 92):
phrase.replace of a left parenthesis by -LRB, then of a right
parenthesis by -RRB-. -/
def escapeParens (p : Str) : Str :=
  replaceChar (replaceChar p '(' LRB_TOKEN) ')' RRB_TOKEN

/-- Python str.split with a single space separator: splits at every
space character, keeping empty fields; the empty string yields one
empty field. -/
def splitOnSpace : Str → List Str
  | [] => [[]]
  | c :: rest =>
    let r := splitOnSpace rest
    if c = ' ' then [] :: r else (c :: r.headD []) :: r.tail

/-- The example record built for one permitted dictionary line
(assign4.py lines 91-96). -/
def mk_example (phrase pid : Str) : Example Str :=
  { phrase := escapeParens phrase
  , tokens := splitOnSpace (escapeParens phrase)
  , example_id := pid
  , label := none }

/-- Insertion into a Python dict: if the key is present its value is
updated in place (keeping the original position), otherwise the pair is
appended at the end. -/
def upsert (d : List (Str × Example Str)) (k : Str) (v : Example Str) :
    List (Str × Example Str) :=
  match d with
  | [] => [(k, v)]
  | kv :: rest => if kv.1 = k then (k, v) :: rest else kv :: upsert rest k v

/-- First phase of read_dictionary_txt_with_phrase_ids (lines 81-96):
fold the dictionary lines (phrase, phrase_id) into the examples dict,
keeping only lines whose phrase id is in the permitted set. -/
def load_dict (dls : List (Str × Str)) (pids : List Str) :
    List (Str × Example Str) :=
  dls.foldl
    (fun d l => if l.2 ∈ pids then upsert d l.2 (mk_example l.1 l.2) else d)
    []

/-- Assigning a label to an existing key of the examples dict; a key
that is absent leaves the dict unchanged (lines 108-109). -/
def set_label (d : List (Str × Example Str)) (k : Str) (lab : Nat) :
    List (Str × Example Str) :=
  d.map (fun kv => if kv.1 = k then (kv.1, { kv.2 with label := some lab }) else kv)

/-- Second phase of read_dictionary_txt_with_phrase_ids (lines 98-109):
each label line (phrase_id, sentiment) is bucketed (raising on an
out-of-range score) and applied to the dict when the id is present. -/
def apply_labels (d : List (Str × Example Str)) :
    List (Str × ℚ) → Except Str (List (Str × Example Str))
  | [] => .ok d
  | (pid, s) :: rest =>
    match sentiment2label s with
    | none => .error ("Improper sentiment value".toList)
    | some lab => apply_labels (set_label d pid lab) rest

/-- read_dictionary_txt_with_phrase_ids (lines 74-115): dictionary
lines are modelled as (phrase, phrase_id) pairs, the phrase-id file as
a list of permitted ids, and the label file (header already skipped) as
(phrase_id, score) pairs.  The examples are the dict values in
insertion order. -/
def read_dictionary_txt_with_phrase_ids (dls : List (Str × Str))
    (pids : List Str) (labels : Option (List (Str × ℚ))) :
    Except Str (List (Example Str)) :=
  match labels with
  | none => .ok ((load_dict dls pids).map (fun kv => kv.2))
  | some ls =>
    match apply_labels (load_dict dls pids) ls with
    | .error e => .error e
    | .ok d2 => .ok (d2.map (fun kv => kv.2))

/-- One step of build_vocab: a word not yet in the vocab dict is
appended with the next id (its position). -/
def add_word (vocab : List Str) (w : Str) : List Str :=
  if w ∈ vocab then vocab else vocab ++ [w]

/-- build_vocab (lines 118-130): the vocab dict is modelled as the list
of its keys in insertion order; the id of a token is its position.
It starts with PAD (id 0) and UNK (id 1) and appends every distinct
token of every dataset in first-encounter order. -/
def build_vocab (datasets : List (List (Example Str))) : List Str :=
  datasets.foldl
    (fun v data => data.foldl (fun v ex => ex.tokens.foldl add_word v) v)
    [PAD_TOKEN, UNK_TOKEN]

/-- The id a vocabulary (modelled as a key list) assigns to a token:
its position in the list (the position of its first occurrence; the
lists of interest have no duplicates). -/
def vocab_id (vocab : List Str) (w : Str) : Nat :=
  match vocab with
  | [] => 0
  | x :: rest => if x = w then 0 else vocab_id rest w + 1

/-- One line of an embedding text file: the leading token and the
numeric values after it. -/
structure EmbLine where
  word : Str
  values : List ℚ
deriving DecidableEq

/-- The fatal errors load_embeddings can raise: the UNK-collision
ValueError (line 192), the row-count assertion (line 209), and the
numpy shape error when a row does not have 300 values (line 214). -/
inductive LoadError where
  | unkInEmbeddings
  | assertMismatch
  | dimMismatch
deriving DecidableEq

/-- First pass of load_embeddings (lines 188-195): walk the file lines
in order, raise on a line whose token is the UNK token, and keep the
lines whose token is in the candidate vocabulary. -/
def first_pass : List EmbLine → List Str → Except LoadError (List EmbLine)
  | [], _ => .ok []
  | l :: ls, vocab =>
    if l.word = UNK_TOKEN then .error .unkInEmbeddings
    else
      match first_pass ls vocab with
      | .error e => .error e
      | .ok rest => .ok (if l.word ∈ vocab then l :: rest else rest)

/-- The filtered subset of file lines whose token is in the candidate
vocabulary: this is both the row list of a successful first pass and
the content written to the cache file (lines 198-202). -/
def emb_rows (file : List EmbLine) (vocab : List Str) : List EmbLine :=
  file.filter (fun l => decide (l.word ∈ vocab))

/-- The size of the Python dict built from a word list by enumerate
(line 205): duplicate words collapse, so the size is the number of
distinct words. -/
def dict_size (ws : List Str) : Nat := ws.dedup.length

/-- The tail of load_embeddings after the first pass (lines 204-216):
new_vocab = [UNK] ++ matched tokens turned into a dict (collapsing
duplicates), the assert len(rows) == len(new_vocab) - 1, and the
matrix: a zero row at index 0 followed by the matched rows, each of
which must have exactly 300 values. -/
def load_embeddings_rows (rows : List EmbLine) :
    Except LoadError (List Str × List (List ℚ)) :=
  if rows.length ≠ dict_size (UNK_TOKEN :: rows.map (fun l => l.word)) - 1 then
    .error .assertMismatch
  else if rows.any (fun l => decide (l.values.length ≠ 300)) then .error .dimMismatch
  else .ok (UNK_TOKEN :: rows.map (fun l => l.word),
    List.replicate 300 (0 : ℚ) :: rows.map (fun l => l.values))

/-- load_embeddings (lines 174-216) on an already-read file. -/
def load_embeddings (file : List EmbLine) (vocab : List Str) :
    Except LoadError (List Str × List (List ℚ)) :=
  match first_pass file vocab with
  | .error e => .error e
  | .ok rows => load_embeddings_rows rows

/-- The maximum token length of a batch, maxlen of prepare_data
(line 223).  Python max raises on an empty list, which never occurs
since every emitted batch is nonempty; the fold with base 0 agrees with
Python max on every nonempty list of lengths. -/
def max_len (g : List (List Nat)) : Nat := (g.map List.length).foldr max 0

/-- prepare_data (lines 221-227): right-pad every token-id row with the
PAD id 0 to the maximum length within the batch. -/
def prepare_data (g : List (List Nat)) : List (List Nat) :=
  let maxlen := max_len g
  g.map (fun ex => ex ++ List.replicate (maxlen - ex.length) 0)

/-- One batch of the single-dataset iterator: the padded token grid,
the label column and the example ids, aligned by position. -/
structure Batch where
  data : List (List Nat)
  labels : List (Option Nat)
  example_ids : List Str
deriving DecidableEq

/-- get_batch of batch_iterator (lines 278-283) applied to the index
slice order[start:end].  The indices drawn from a permutation of the
dataset range are always in bounds, so the Python indexing never
fails; out-of-range indices fall back to the default example. -/
def get_batch (dataset : List (Example Nat)) (idxs : List Nat) : Batch :=
  let batch := idxs.map (fun ii => dataset.getD ii default)
  { data := prepare_data (batch.map (fun ex => ex.tokens))
  , labels := batch.map (fun ex => ex.label)
  , example_ids := batch.map (fun ex => ex.example_id) }

/-- The index slices a single pass of the iterators draws from the
shuffled order (lines 287-294): nbatches consecutive chunks
order[i*B:(i+1)*B], then the remainder slice order[nbatches*B:S] when
nbatches*B < S.  Python slicing order[s:e] is take (e - s) of drop s;
nbatches = dataset_size // batch_size appears inlined as S / B. -/
def batch_slices (order : List Nat) (S B : Nat) : List (List Nat) :=
  (List.range (S / B)).map (fun i => (order.drop (i * B)).take B) ++
    (if S / B * B < S then [(order.drop (S / B * B)).take (S - S / B * B)] else [])

/-- batch_iterator (lines 270-299) with forever=False: one full pass,
one Batch per slice of the shuffled order. -/
def batch_iterator (dataset : List (Example Nat)) (B : Nat)
    (order : List Nat) : List Batch :=
  (batch_slices order dataset.length B).map (get_batch dataset)

/-- One batch of the two-channel iterator: the stacked 3D grid indexed
(channel, example, token position), with labels and ids taken from the
first channel. -/
structure Batch2 where
  data : List (List (List Nat))
  labels : List (Option Nat)
  example_ids : List Str
deriving DecidableEq

/-- get_batch of batches_iterator (lines 245-251): the same index slice
is applied to every dataset, each channel grid is padded separately,
and the grids are stacked; labels and ids come from channel 0. -/
def get_batch2 (datasets : List (List (Example Nat))) (idxs : List Nat) :
    Batch2 :=
  let batches := datasets.map (fun dataset => idxs.map (fun ii => dataset.getD ii default))
  { data := batches.map (fun batch => prepare_data (batch.map (fun ex => ex.tokens)))
  , labels := (batches.headD []).map (fun ex => ex.label)
  , example_ids := (batches.headD []).map (fun ex => ex.example_id) }

/-- batches_iterator (lines 237-267) with forever=False: dataset_size
is the length of datasets[0], and a single shuffled order drives every
channel. -/
def batches_iterator (datasets : List (List (Example Nat))) (B : Nat)
    (order : List Nat) : List Batch2 :=
  (batch_slices order (datasets.headD []).length B).map (get_batch2 datasets)

/-- The checkpoint decisions of the training loops (run, lines 602-611,
and run_twochannel, lines 558-567), driven by the sequence of
validation accuracies the successive validation events produce: a
checkpoint is written (true) exactly when the accuracy strictly
exceeds the best value, which is then updated. -/
def run_checkpoints_aux (best : ℚ) : List ℚ → List Bool
  | [] => []
  | a :: rest =>
    if best < a then true :: run_checkpoints_aux a rest
    else false :: run_checkpoints_aux best rest

/-- The checkpoint-write flags of a run whose validation events yield
the given accuracies, starting from best_val_acc = 0.0 (lines 579,
602-611). -/
def run_checkpoints (accs : List ℚ) : List Bool := run_checkpoints_aux 0 accs

set_option maxRecDepth 8000

lemma s2l_eq0 {x : ℚ} (h0 : 0 ≤ x) (h : x ≤ 2/10) : sentiment2label x = some 0 := by
  unfold sentiment2label; rw [if_pos ⟨h0, h⟩]

lemma s2l_eq1 {x : ℚ} (h : 2/10 < x) (h2 : x ≤ 4/10) : sentiment2label x = some 1 := by
  unfold sentiment2label
  rw [if_neg (by intro hc; linarith [hc.2]), if_pos ⟨h, h2⟩]

lemma s2l_eq2 {x : ℚ} (h : 4/10 < x) (h2 : x ≤ 6/10) : sentiment2label x = some 2 := by
  unfold sentiment2label
  rw [if_neg (by intro hc; linarith [hc.2]), if_neg (by intro hc; linarith [hc.2]),
    if_pos ⟨h, h2⟩]

lemma s2l_eq3 {x : ℚ} (h : 6/10 < x) (h2 : x ≤ 8/10) : sentiment2label x = some 3 := by
  unfold sentiment2label
  rw [if_neg (by intro hc; linarith [hc.2]), if_neg (by intro hc; linarith [hc.2]),
    if_neg (by intro hc; linarith [hc.2]), if_pos ⟨h, h2⟩]

lemma s2l_eq4 {x : ℚ} (h : 8/10 < x) (h2 : x ≤ 1) : sentiment2label x = some 4 := by
  unfold sentiment2label
  rw [if_neg (by intro hc; linarith [hc.2]), if_neg (by intro hc; linarith [hc.2]),
    if_neg (by intro hc; linarith [hc.2]), if_neg (by intro hc; linarith [hc.2]),
    if_pos ⟨h, h2⟩]

lemma s2l_lower {x : ℚ} {a : Nat} (h : sentiment2label x = some a) :
    (a : ℚ) * 2 / 10 < x ∨ a = 0 := by
  unfold sentiment2label at h
  split_ifs at h with h1 h2 h3 h4 h5 <;> injection h with h <;> subst h
  · right; rfl
  · left; push_cast; linarith [h2.1]
  · left; push_cast; linarith [h3.1]
  · left; push_cast; linarith [h4.1]
  · left; push_cast; linarith [h5.1]

lemma s2l_upper {x : ℚ} {a : Nat} (h : sentiment2label x = some a) :
    x ≤ ((a : ℚ) + 1) * 2 / 10 := by
  unfold sentiment2label at h
  split_ifs at h with h1 h2 h3 h4 h5 <;> injection h with h <;> subst h
  · push_cast; linarith [h1.2]
  · push_cast; linarith [h2.2]
  · push_cast; linarith [h3.2]
  · push_cast; linarith [h4.2]
  · push_cast; linarith [h5.2]

/-- C3: for every score in the unit interval sentiment2label returns
exactly one of the labels 0..4 following the fixed buckets, it is
monotonically non-decreasing there, and every score outside the unit
interval raises ValueError (modelled as none). -/
theorem c3_sentiment2label_buckets :
    (∀ x : ℚ, 0 ≤ x → x ≤ 1 →
      ∃ l, sentiment2label x = some l ∧
        (l = 0 ∨ l = 1 ∨ l = 2 ∨ l = 3 ∨ l = 4) ∧
        ((0 ≤ x ∧ x ≤ 2/10) → l = 0) ∧
        ((2/10 < x ∧ x ≤ 4/10) → l = 1) ∧
        ((4/10 < x ∧ x ≤ 6/10) → l = 2) ∧
        ((6/10 < x ∧ x ≤ 8/10) → l = 3) ∧
        ((8/10 < x ∧ x ≤ 1) → l = 4)) ∧
    (∀ x y : ℚ, 0 ≤ x → x ≤ y → y ≤ 1 → ∀ a b : Nat,
      sentiment2label x = some a → sentiment2label y = some b → a ≤ b) ∧
    (∀ x : ℚ, x < 0 ∨ 1 < x → sentiment2label x = none) := by
  refine ⟨?_, ?_, ?_⟩
  · intro x h0 h1
    rcases le_or_lt x (2/10) with c1 | c1
    · exact ⟨0, s2l_eq0 h0 c1, by norm_num, fun _ => rfl,
        fun hc => absurd c1 (not_le.mpr (lt_of_le_of_lt (by norm_num) hc.1)),
        fun hc => absurd c1 (not_le.mpr (lt_of_le_of_lt (by norm_num) hc.1)),
        fun hc => absurd c1 (not_le.mpr (lt_of_le_of_lt (by norm_num) hc.1)),
        fun hc => absurd c1 (not_le.mpr (lt_of_le_of_lt (by norm_num) hc.1))⟩
    · rcases le_or_lt x (4/10) with c2 | c2
      · exact ⟨1, s2l_eq1 c1 c2,
          by norm_num,
          fun hc => absurd hc.2 (not_le.mpr c1), fun _ => rfl,
          fun hc => absurd c2 (not_le.mpr (lt_of_le_of_lt (by norm_num) hc.1)),
          fun hc => absurd c2 (not_le.mpr (lt_of_le_of_lt (by norm_num) hc.1)),
          fun hc => absurd c2 (not_le.mpr (lt_of_le_of_lt (by norm_num) hc.1))⟩
      · rcases le_or_lt x (6/10) with c3 | c3
        · exact ⟨2, s2l_eq2 c2 c3,
            by norm_num,
            fun hc => absurd (le_trans hc.2 (by norm_num)) (not_le.mpr c2),
            fun hc => absurd hc.2 (not_le.mpr c2), fun _ => rfl,
            fun hc => absurd c3 (not_le.mpr (lt_of_le_of_lt (by norm_num) hc.1)),
            fun hc => absurd c3 (not_le.mpr (lt_of_le_of_lt (by norm_num) hc.1))⟩
        · rcases le_or_lt x (8/10) with c4 | c4
          · exact ⟨3, s2l_eq3 c3 c4,
              by norm_num,
              fun hc => absurd (le_trans hc.2 (by norm_num)) (not_le.mpr c3),
              fun hc => absurd (le_trans hc.2 (by norm_num)) (not_le.mpr c3),
              fun hc => absurd hc.2 (not_le.mpr c3), fun _ => rfl,
              fun hc => absurd c4 (not_le.mpr (lt_of_le_of_lt (by norm_num) hc.1))⟩
          · exact ⟨4, s2l_eq4 c4 h1,
              by norm_num,
              fun hc => absurd (le_trans hc.2 (by norm_num)) (not_le.mpr c4),
              fun hc => absurd (le_trans hc.2 (by norm_num)) (not_le.mpr c4),
              fun hc => absurd (le_trans hc.2 (by norm_num)) (not_le.mpr c4),
              fun hc => absurd hc.2 (not_le.mpr c4), fun _ => rfl⟩
  · intro x y hx0 hxy hy1 a b ha hb
    by_contra hab
    push_neg at hab
    rcases s2l_lower ha with hl | ha0
    · have hu := s2l_upper hb
      have hcast : ((b : ℚ) + 1) ≤ (a : ℚ) := by exact_mod_cast Nat.succ_le_of_lt hab
      linarith
    · omega
  · intro x h
    unfold sentiment2label
    rcases h with h | h <;> split_ifs with h1 h2 h3 h4 h5 <;>
      first
        | rfl
        | (exfalso
           (try obtain ⟨u, v⟩ := h1)
           (try obtain ⟨u, v⟩ := h2)
           (try obtain ⟨u, v⟩ := h3)
           (try obtain ⟨u, v⟩ := h4)
           (try obtain ⟨u, v⟩ := h5)
           linarith)

/-- C3 witness: the theorem applied at concrete scores. -/
theorem c3_witness : sentiment2label (2 : ℚ) = none :=
  c3_sentiment2label_buckets.2.2 2 (Or.inr (by norm_num))

lemma run_checkpoints_aux_getD (accs : List ℚ) : ∀ (best : ℚ) (i : Nat), i < accs.length →
    ((run_checkpoints_aux best accs).getD i false = true ↔
      (accs.take i).foldl max best < accs.getD i 0) := by
  induction accs with
  | nil => intro best i hi; simp at hi
  | cons a rest ih =>
    intro best i hi
    match i with
    | 0 =>
      unfold run_checkpoints_aux
      split_ifs with h <;> simpa using h
    | i + 1 =>
      have hlt : i < rest.length := by simpa using hi
      unfold run_checkpoints_aux
      split_ifs with h
      · simp only [List.getD_cons_succ, List.take_succ_cons, List.foldl_cons]
        rw [max_eq_right (le_of_lt h)]
        exact ih a i hlt
      · simp only [List.getD_cons_succ, List.take_succ_cons, List.foldl_cons]
        rw [max_eq_left (le_of_not_lt h)]
        exact ih best i hlt

/-- C5: a checkpoint is written at validation event i exactly when that
event's accuracy strictly exceeds the running best (the maximum of 0.0
and all earlier accuracies), and the sequence [0.40, 0.55, 0.50, 0.60]
produces exactly the writes [true, true, false, true], three in total. -/
theorem c5_checkpoint_iff (accs : List ℚ) (i : Nat) (hi : i < accs.length) :
    ((run_checkpoints accs).getD i false = true ↔
      (accs.take i).foldl max 0 < accs.getD i 0) ∧
    run_checkpoints [2/5, 11/20, 1/2, 3/5] = [true, true, false, true] ∧
    (run_checkpoints [2/5, 11/20, 1/2, 3/5]).count true = 3 := by
  refine ⟨run_checkpoints_aux_getD accs 0 i hi, ?_, ?_⟩ <;>
    norm_num [run_checkpoints, run_checkpoints_aux, List.count_cons]

/-- C5 witness: the theorem applied to the scenario sequence at event 1. -/
theorem c5_witness : (run_checkpoints [2/5, 11/20, 1/2, 3/5]).getD 1 false = true :=
  ((c5_checkpoint_iff [2/5, 11/20, 1/2, 3/5] 1 (by norm_num)).1).mpr
    (by norm_num [max_def])

lemma take_add' {α : Type} (l : List α) (m n : Nat) :
    l.take (m + n) = l.take m ++ (l.drop m).take n := by
  induction m generalizing l with
  | zero => simp
  | succ k ih =>
    cases l with
    | nil => simp
    | cons a t =>
      rw [Nat.succ_add]
      simp only [List.take_succ_cons, List.drop_succ_cons, List.cons_append]
      rw [ih]

lemma mem_le_max_len (g : List (List Nat)) (ex : List Nat) (h : ex ∈ g) :
    ex.length ≤ max_len g := by
  induction g with
  | nil => simp at h
  | cons a t ih =>
    rcases List.mem_cons.mp h with h | h
    · subst h; simp only [max_len, List.map_cons, List.foldr_cons]; exact le_max_left _ _
    · exact le_trans (ih h) (by simp only [max_len, List.map_cons, List.foldr_cons]; exact le_max_right _ _)

lemma prepare_data_row_length (g : List (List Nat)) (row : List Nat)
    (h : row ∈ prepare_data g) : row.length = max_len g := by
  unfold prepare_data at h
  rcases List.mem_map.mp h with ⟨ex, hex, rfl⟩
  have := mem_le_max_len g ex hex
  simp only [List.length_append, List.length_replicate]
  omega

lemma range_chunks_flatten (order : List Nat) (B : Nat) (nb : Nat) :
    ((List.range nb).map (fun i => (order.drop (i * B)).take B)).flatten =
      order.take (nb * B) := by
  induction nb with
  | zero => simp
  | succ n ih =>
    rw [List.range_succ, List.map_append, List.flatten_append]
    simp only [List.map_cons, List.map_nil, List.flatten_cons, List.flatten_nil,
      List.append_nil]
    rw [ih, Nat.succ_mul, take_add']

lemma batch_slices_flatten (order : List Nat) (S B : Nat) (hlen : order.length = S) :
    (batch_slices order S B).flatten = order := by
  unfold batch_slices
  split_ifs with h
  · rw [List.flatten_append, range_chunks_flatten]
    simp only [List.flatten_cons, List.flatten_nil, List.append_nil]
    rw [← take_add']
    have hle : S / B * B ≤ S := Nat.div_mul_le_self S B
    have heq : S / B * B + (S - S / B * B) = S := by omega
    rw [heq, ← hlen, List.take_length]
  · push_neg at h
    have hge : S / B * B ≤ S := Nat.div_mul_le_self S B
    have heq : S / B * B = S := le_antisymm hge h
    rw [List.append_nil, range_chunks_flatten, heq, ← hlen, List.take_length]

lemma batch_slices_length (order : List Nat) (S B : Nat) (hB : 1 ≤ B) :
    (batch_slices order S B).length = (S + B - 1) / B := by
  have hB0 : 0 < B := hB
  obtain ⟨q, r, hqr, hrB⟩ : ∃ q r, S = B * q + r ∧ r < B :=
    ⟨S / B, S % B, by rw [Nat.div_add_mod], Nat.mod_lt S hB0⟩
  have hdiv : S / B = q := by
    rw [hqr, Nat.mul_add_div hB0, Nat.div_eq_of_lt hrB]
    exact Nat.add_zero q
  unfold batch_slices
  rw [hdiv]
  clear hdiv
  split_ifs with h
  · have hr : 0 < r := by
      by_contra h0
      push_neg at h0
      have h0 : r = 0 := Nat.le_zero.mp h0
      rw [hqr, h0, Nat.add_zero, mul_comm] at h
      exact lt_irrefl _ h
    simp only [List.length_append, List.length_map, List.length_range,
      List.length_cons, List.length_nil]
    have hSB : S + B - 1 = B * q + (r + B - 1) := by
      rw [hqr, Nat.add_assoc, Nat.add_sub_assoc (by omega)]
    rw [hSB, Nat.mul_add_div hB0]
    have h1 : (r + B - 1) / B = 1 := by
      apply Nat.div_eq_of_lt_le
      · omega
      · omega
    rw [h1]
  · have hr : r = 0 := by
      by_contra h0
      apply h
      rw [hqr, mul_comm]
      exact Nat.lt_add_of_pos_right (Nat.pos_of_ne_zero h0)
    simp only [List.length_append, List.length_map, List.length_range,
      List.length_nil, Nat.add_zero]
    have hSB : S + B - 1 = B * q + (B - 1) := by
      rw [hqr, hr, Nat.add_zero, Nat.add_sub_assoc hB]
    rw [hSB, Nat.mul_add_div hB0, Nat.div_eq_of_lt (by omega), Nat.add_zero]

/-- C2: with forever=False batch_iterator yields exactly ceil(S/B)
batches, the batch sizes sum to S, the index slices driving the
batches cover every dataset index exactly once, and every row of a
batch grid is padded exactly to that batch's own maximum token
length. -/
theorem c2_batch_iterator_spec (dataset : List (Example Nat)) (B : Nat) (order : List Nat)
    (hS : 1 ≤ dataset.length) (hB : 1 ≤ B)
    (hord : order.Perm (List.range dataset.length)) :
    (batch_iterator dataset B order).length = (dataset.length + B - 1) / B ∧
    ((batch_iterator dataset B order).map (fun b => b.example_ids.length)).sum =
      dataset.length ∧
    (batch_slices order dataset.length B).flatten.Perm (List.range dataset.length) ∧
    batch_iterator dataset B order =
      (batch_slices order dataset.length B).map (get_batch dataset) ∧
    ∀ idxs ∈ batch_slices order dataset.length B,
      ∀ row ∈ (get_batch dataset idxs).data,
        row.length = max_len (idxs.map (fun ii => (dataset.getD ii default).tokens)) := by
  have hlen : order.length = dataset.length := by
    rw [hord.length_eq, List.length_range]
  refine ⟨?_, ?_, ?_, rfl, ?_⟩
  · unfold batch_iterator
    rw [List.length_map]
    exact batch_slices_length order _ B hB
  · unfold batch_iterator
    rw [List.map_map]
    have hcomp : ((fun b => b.example_ids.length) ∘ get_batch dataset) =
        fun idxs : List Nat => idxs.length := by
      funext idxs
      simp [get_batch]
    rw [hcomp]
    have hfl := List.length_flatten (batch_slices order dataset.length B)
    rw [batch_slices_flatten order _ B hlen, hlen] at hfl
    exact hfl.symm
  · rw [batch_slices_flatten order _ B hlen]; exact hord
  · intro idxs hidxs row hrow
    have hdata : (get_batch dataset idxs).data =
        prepare_data (idxs.map (fun ii => (dataset.getD ii default).tokens)) := by
      simp [get_batch, List.map_map]
      rfl
    rw [hdata] at hrow
    exact prepare_data_row_length _ row hrow

def ex_ds : List (Example Nat) :=
  [ { phrase := [], tokens := [1, 2], example_id := "a".toList, label := some 0 }
  , { phrase := [], tokens := [3], example_id := "b".toList, label := some 1 }
  , { phrase := [], tokens := [4, 5, 6], example_id := "c".toList, label := some 2 } ]

/-- C2 witness: the theorem applied to a 3-example dataset with batch
size 2 and the shuffle order [2, 0, 1]. -/
theorem c2_witness : (batch_iterator ex_ds 2 [2, 0, 1]).length = 2 :=
  (c2_batch_iterator_spec ex_ds 2 [2, 0, 1] (by decide) (by decide) (by decide)).1

lemma batch_slices_mem_subset (order : List Nat) (S B : Nat) (idxs : List Nat)
    (h : idxs ∈ batch_slices order S B) : ∀ ii ∈ idxs, ii ∈ order := by
  intro ii hii
  unfold batch_slices at h
  rcases List.mem_append.mp h with h | h
  · rcases List.mem_map.mp h with ⟨i, _, rfl⟩
    exact List.mem_of_mem_drop (List.mem_of_mem_take hii)
  · split_ifs at h with hc
    · have := List.mem_singleton.mp h
      subst this
      exact List.mem_of_mem_drop (List.mem_of_mem_take hii)
    · simp at h

/-- C6: every batch of the two-channel iterator on a pair of datasets
is produced from one index slice of the single shuffled order, applied
identically to both channels: the 3D grid stacks the two channels'
separately padded grids over the same slice, positionally matched
examples carry matching example ids, and labels and ids come from
channel 0. -/
theorem c6_batches_iterator_pairing (d1 d2 : List (Example Nat)) (B : Nat)
    (order : List Nat)
    (hlen : d2.length = d1.length)
    (hids : ∀ i, i < d1.length →
      (d1.getD i default).example_id = (d2.getD i default).example_id)
    (hord : order.Perm (List.range d1.length)) :
    ∀ b ∈ batches_iterator [d1, d2] B order,
      ∃ idxs ∈ batch_slices order d1.length B,
        b = get_batch2 [d1, d2] idxs ∧
        b.data = [prepare_data (idxs.map (fun ii => (d1.getD ii default).tokens)),
                  prepare_data (idxs.map (fun ii => (d2.getD ii default).tokens))] ∧
        idxs.map (fun ii => (d1.getD ii default).example_id) =
          idxs.map (fun ii => (d2.getD ii default).example_id) ∧
        b.example_ids = idxs.map (fun ii => (d1.getD ii default).example_id) ∧
        b.labels = idxs.map (fun ii => (d1.getD ii default).label) := by
  intro b hb
  unfold batches_iterator at hb
  rcases List.mem_map.mp hb with ⟨idxs, hmem, rfl⟩
  have hmem1 : idxs ∈ batch_slices order d1.length B := hmem
  refine ⟨idxs, hmem1, rfl, ?_, ?_, ?_, ?_⟩
  · simp only [get_batch2, List.map_map, List.map_cons, List.map_nil]
    exact rfl
  · apply List.map_congr_left
    intro ii hii
    have hmemo : ii ∈ order := batch_slices_mem_subset order _ B idxs hmem1 ii hii
    have : ii ∈ List.range d1.length := hord.mem_iff.mp hmemo
    exact hids ii (List.mem_range.mp this)
  · simp [get_batch2, List.map_map, Function.comp]
  · simp [get_batch2, List.map_map, Function.comp]

def ex_d1 : List (Example Nat) :=
  [ { phrase := [], tokens := [1], example_id := "a".toList, label := some 0 }
  , { phrase := [], tokens := [2, 3], example_id := "b".toList, label := some 1 } ]

def ex_d2 : List (Example Nat) :=
  [ { phrase := [], tokens := [7], example_id := "a".toList, label := some 0 }
  , { phrase := [], tokens := [8], example_id := "b".toList, label := some 1 } ]

/-- C6 witness: the theorem applied to a pair of 2-example datasets with
batch size 1 and the shuffle order [1, 0]. -/
theorem c6_witness :
    ∃ idxs ∈ batch_slices [1, 0] 2 1,
      (get_batch2 [ex_d1, ex_d2] [1]).example_ids =
        idxs.map (fun ii => (ex_d1.getD ii default).example_id) := by
  obtain ⟨idxs, hmem, _, _, _, hids, _⟩ :=
    c6_batches_iterator_pairing ex_d1 ex_d2 1 [1, 0] (by decide) (by decide) (by decide)
      (get_batch2 [ex_d1, ex_d2] [1]) (by decide)
  exact ⟨idxs, hmem, hids⟩

lemma foldl_extends {α β : Type} (f : List α → β → List α)
    (hf : ∀ v x, ∃ t, f v x = v ++ t) :
    ∀ (l : List β) (v : List α), ∃ t, l.foldl f v = v ++ t := by
  intro l
  induction l with
  | nil => intro v; exact ⟨[], by simp⟩
  | cons x xs ih =>
    intro v
    obtain ⟨t0, h0⟩ := hf v x
    obtain ⟨t1, h1⟩ := ih (f v x)
    exact ⟨t0 ++ t1, by rw [List.foldl_cons, h1, h0, List.append_assoc]⟩

lemma foldl_preserves {α β : Type} (f : α → β → α) (P : α → Prop)
    (hf : ∀ v x, P v → P (f v x)) :
    ∀ (l : List β) (v : α), P v → P (l.foldl f v) := by
  intro l
  induction l with
  | nil => intro v hv; exact hv
  | cons x xs ih => intro v hv; exact ih (f v x) (hf v x hv)

lemma add_word_extends (v : List Str) (w : Str) : ∃ t, add_word v w = v ++ t := by
  unfold add_word
  split_ifs
  · exact ⟨[], by simp⟩
  · exact ⟨[w], rfl⟩

lemma build_vocab_shape (datasets : List (List (Example Str))) :
    ∃ t, build_vocab datasets = PAD_TOKEN :: UNK_TOKEN :: t := by
  unfold build_vocab
  obtain ⟨t, ht⟩ :=
    foldl_extends _
      (fun v data =>
        foldl_extends _ (fun v ex => foldl_extends _ add_word_extends ex.tokens v) data v)
      datasets [PAD_TOKEN, UNK_TOKEN]
  exact ⟨t, ht⟩

lemma add_word_nodup (v : List Str) (w : Str) (h : v.Nodup) : (add_word v w).Nodup := by
  unfold add_word
  split_ifs with hw
  · exact h
  · rw [List.nodup_append]
    refine ⟨h, List.nodup_singleton w, ?_⟩
    intro a ha hb
    rw [List.mem_singleton] at hb
    subst hb
    exact hw ha

lemma build_vocab_nodup (datasets : List (List (Example Str))) :
    (build_vocab datasets).Nodup := by
  unfold build_vocab
  have hinit : ([PAD_TOKEN, UNK_TOKEN] : List Str).Nodup := by decide
  refine foldl_preserves _ List.Nodup ?_ datasets [PAD_TOKEN, UNK_TOKEN] hinit
  intro v data hv
  refine foldl_preserves _ List.Nodup ?_ data v hv
  intro v ex hv
  refine foldl_preserves _ List.Nodup ?_ ex.tokens v hv
  intro v w hv
  exact add_word_nodup v w hv

lemma vocab_id_cons_self (w : Str) (l : List Str) : vocab_id (w :: l) w = 0 := by
  simp [vocab_id]

lemma vocab_id_cons_ne {x w : Str} (l : List Str) (h : x ≠ w) :
    vocab_id (x :: l) w = vocab_id l w + 1 := by
  simp [vocab_id, h]

lemma vocab_id_getElem (v : List Str) (h : v.Nodup) (i : Nat) (hi : i < v.length) :
    vocab_id v v[i] = i := by
  induction v generalizing i with
  | nil => simp at hi
  | cons a rest ih =>
    cases i with
    | zero => simp [vocab_id]
    | succ i =>
      have hi2 : i < rest.length := by simpa using hi
      have hmem : rest[i] ∈ rest := List.getElem_mem hi2
      have hne : a ≠ rest[i] := fun he => (List.nodup_cons.mp h).1 (he ▸ hmem)
      simp only [List.getElem_cons_succ]
      rw [vocab_id_cons_ne _ hne, ih (List.nodup_cons.mp h).2 i hi2]

lemma nodup_map_vocab_id (v : List Str) (h : v.Nodup) :
    v.map (vocab_id v) = List.range v.length := by
  apply List.ext_getElem
  · simp
  · intro i h1 h2
    simp only [List.getElem_map, List.getElem_range]
    exact vocab_id_getElem v h i (by simpa using h1)

lemma build_vocab_pad (datasets : List (List (Example Str))) :
    vocab_id (build_vocab datasets) PAD_TOKEN = 0 := by
  obtain ⟨t, ht⟩ := build_vocab_shape datasets
  rw [ht]
  exact vocab_id_cons_self _ _

lemma build_vocab_unk (datasets : List (List (Example Str))) :
    vocab_id (build_vocab datasets) UNK_TOKEN = 1 := by
  obtain ⟨t, ht⟩ := build_vocab_shape datasets
  rw [ht]
  rw [vocab_id_cons_ne _ (by decide), vocab_id_cons_self]

lemma first_pass_eq (file : List EmbLine) (vocab : List Str) :
    first_pass file vocab =
      if ∃ l ∈ file, l.word = UNK_TOKEN then .error .unkInEmbeddings
      else .ok (emb_rows file vocab) := by
  induction file with
  | nil => simp [first_pass, emb_rows]
  | cons l ls ih =>
    unfold first_pass
    by_cases hw : l.word = UNK_TOKEN
    · rw [if_pos hw, if_pos ⟨l, List.mem_cons_self l ls, hw⟩]
    · rw [if_neg hw, ih]
      by_cases ha : ∃ x ∈ ls, x.word = UNK_TOKEN
      · rw [if_pos ha,
          if_pos (by rcases ha with ⟨x, hx, hxe⟩; exact ⟨x, List.mem_cons_of_mem l hx, hxe⟩)]
      · rw [if_neg ha, if_neg (by
          rintro ⟨x, hx, hxe⟩
          rcases List.mem_cons.mp hx with h | h
          · subst h; exact hw hxe
          · exact ha ⟨x, h, hxe⟩)]
        unfold emb_rows
        rw [List.filter_cons]
        by_cases hv : l.word ∈ vocab
        · simp [hv]
        · simp [hv]

lemma load_embeddings_eq (file : List EmbLine) (vocab : List Str) :
    load_embeddings file vocab =
      if ∃ l ∈ file, l.word = UNK_TOKEN then .error .unkInEmbeddings
      else load_embeddings_rows (emb_rows file vocab) := by
  unfold load_embeddings
  rw [first_pass_eq]
  split_ifs with h <;> rfl

lemma load_embeddings_ok {file : List EmbLine} {vocab : List Str}
    {v : List Str} {m : List (List ℚ)}
    (h : load_embeddings file vocab = .ok (v, m)) :
    v = UNK_TOKEN :: (emb_rows file vocab).map (fun l => l.word) ∧
    m = List.replicate 300 (0 : ℚ) :: (emb_rows file vocab).map (fun l => l.values) ∧
    v.Nodup := by
  rw [load_embeddings_eq] at h
  by_cases hunk : ∃ l ∈ file, l.word = UNK_TOKEN
  · rw [if_pos hunk] at h
    exact absurd h (by simp)
  · rw [if_neg hunk] at h
    unfold load_embeddings_rows at h
    by_cases h1 : (emb_rows file vocab).length ≠
        dict_size (UNK_TOKEN :: (emb_rows file vocab).map (fun l => l.word)) - 1
    · rw [if_pos h1] at h
      exact absurd h (by simp)
    · rw [if_neg h1] at h
      by_cases h2 : (emb_rows file vocab).any (fun l => decide (l.values.length ≠ 300))
      · rw [if_pos h2] at h
        exact absurd h (by simp)
      · rw [if_neg h2] at h
        push_neg at h1
        simp only [Except.ok.injEq, Prod.mk.injEq] at h
        obtain ⟨hv, hm⟩ := h
        refine ⟨hv.symm, hm.symm, ?_⟩
        have hsub := List.dedup_sublist
          (UNK_TOKEN :: (emb_rows file vocab).map (fun l => l.word))
        have hle := hsub.length_le
        have hpos : 0 <
            (UNK_TOKEN :: (emb_rows file vocab).map (fun l => l.word)).dedup.length := by
          have hmem : UNK_TOKEN ∈
              (UNK_TOKEN :: (emb_rows file vocab).map (fun l => l.word)).dedup :=
            List.mem_dedup.mpr (List.mem_cons_self _ _)
          exact List.length_pos.mpr (List.ne_nil_of_mem hmem)
        have hlen : (UNK_TOKEN :: (emb_rows file vocab).map (fun l => l.word)).length =
            (emb_rows file vocab).length + 1 := by simp
        unfold dict_size at h1
        have heq : (UNK_TOKEN :: (emb_rows file vocab).map (fun l => l.word)).dedup.length =
            (UNK_TOKEN :: (emb_rows file vocab).map (fun l => l.word)).length := by omega
        have hnodup := List.dedup_eq_self.mp (hsub.eq_of_length heq)
        rw [hv] at hnodup
        exact hnodup

/-- C1 (amended): every vocabulary is dense (the ids assigned to its
tokens are exactly 0..size-1, each exactly once) and deterministic;
build_vocab always assigns PAD id 0 and UNK id 1, while the final
vocabulary returned by load_embeddings assigns UNK id 0 (PAD is not a
reserved entry there and is dropped unless the embedding file happens
to contain it). -/
theorem c1_vocab_dense_amended :
    (∀ datasets : List (List (Example Str)),
      (build_vocab datasets).Nodup ∧
      (build_vocab datasets).map (vocab_id (build_vocab datasets)) =
        List.range (build_vocab datasets).length ∧
      vocab_id (build_vocab datasets) PAD_TOKEN = 0 ∧
      vocab_id (build_vocab datasets) UNK_TOKEN = 1 ∧
      ∀ datasets2, datasets2 = datasets → build_vocab datasets2 = build_vocab datasets) ∧
    (∀ (file : List EmbLine) (vocab v : List Str) (m : List (List ℚ)),
      load_embeddings file vocab = .ok (v, m) →
      v.Nodup ∧
      v.map (vocab_id v) = List.range v.length ∧
      vocab_id v UNK_TOKEN = 0 ∧
      ∀ file2 vocab2, file2 = file → vocab2 = vocab →
        load_embeddings file2 vocab2 = load_embeddings file vocab) := by
  constructor
  · intro datasets
    have hn := build_vocab_nodup datasets
    exact ⟨hn, nodup_map_vocab_id _ hn, build_vocab_pad datasets, build_vocab_unk datasets,
      fun _ h => by rw [h]⟩
  · intro file vocab v m h
    obtain ⟨hv, _, hn⟩ := load_embeddings_ok h
    refine ⟨hn, nodup_map_vocab_id _ hn, ?_, fun _ _ h1 h2 => by rw [h1, h2]⟩
    rw [hv]
    exact vocab_id_cons_self _ _

def cex_example : Example Str :=
  { phrase := "good".toList, tokens := ["good".toList]
  , example_id := "1".toList, label := none }

def cex_file : List EmbLine := [{ word := "good".toList, values := List.replicate 300 0 }]

/-- C1 counterexample: on a one-phrase dataset and a one-line embedding
file, the final vocabulary returned by load_embeddings is [UNK, good]:
PAD is not in it at all (its id there is not 0), even though build_vocab
did assign PAD id 0.  The claim that PAD always has id 0 in every
vocabulary produced by the pipeline is therefore false. -/
theorem c1_counterexample :
    load_embeddings cex_file (build_vocab [[cex_example]]) =
      .ok ([UNK_TOKEN, "good".toList], [List.replicate 300 0, List.replicate 300 0]) ∧
    vocab_id (build_vocab [[cex_example]]) PAD_TOKEN = 0 ∧
    PAD_TOKEN ∉ [UNK_TOKEN, "good".toList] ∧
    vocab_id [UNK_TOKEN, "good".toList] PAD_TOKEN ≠ 0 :=
  ⟨by rfl, by decide, by decide, by decide⟩

/-- C1 witness: the amended theorem applied to the concrete embedding
file and vocabulary of the counterexample. -/
theorem c1_witness : vocab_id [UNK_TOKEN, "good".toList] UNK_TOKEN = 0 :=
  (c1_vocab_dense_amended.2 cex_file (build_vocab [[cex_example]])
    [UNK_TOKEN, "good".toList] [List.replicate 300 0, List.replicate 300 0]
    (by rfl)).2.2.1

lemma emb_rows_idem (file : List EmbLine) (vocab : List Str) :
    emb_rows (emb_rows file vocab) vocab = emb_rows file vocab := by
  unfold emb_rows
  induction file with
  | nil => rfl
  | cons l ls ih =>
    rw [List.filter_cons]
    by_cases hv : l.word ∈ vocab
    · simp [hv, List.filter_cons, ih]
    · simp [hv, ih]

/-- C4: when load_embeddings succeeds, running it again on the cache
content it produced (the vocabulary-filtered row subset) with the same
candidate vocabulary returns the identical vocabulary and matrix. -/
theorem c4_cache_roundtrip (file : List EmbLine) (vocab : List Str)
    (v : List Str) (m : List (List ℚ))
    (h : load_embeddings file vocab = .ok (v, m)) :
    load_embeddings (emb_rows file vocab) vocab = .ok (v, m) := by
  have hunk : ¬∃ l ∈ file, l.word = UNK_TOKEN := by
    intro hc
    rw [load_embeddings_eq, if_pos hc] at h
    exact absurd h (by simp)
  have hunk2 : ¬∃ l ∈ emb_rows file vocab, l.word = UNK_TOKEN := by
    rintro ⟨l, hl, he⟩
    exact hunk ⟨l, List.mem_of_mem_filter hl, he⟩
  rw [load_embeddings_eq, if_neg hunk2, emb_rows_idem]
  rw [load_embeddings_eq, if_neg hunk] at h
  exact h

/-- C4 witness: the theorem applied to the concrete embedding file and
vocabulary of the C1 development. -/
theorem c4_witness :
    load_embeddings (emb_rows cex_file (build_vocab [[cex_example]]))
      (build_vocab [[cex_example]]) =
      .ok ([UNK_TOKEN, "good".toList], [List.replicate 300 0, List.replicate 300 0]) :=
  c4_cache_roundtrip cex_file (build_vocab [[cex_example]])
    [UNK_TOKEN, "good".toList] [List.replicate 300 0, List.replicate 300 0] (by rfl)

/-- C7: load_embeddings raises the UNK-collision ValueError exactly
when the file it reads contains a row whose token is the UNK token
literal; for a file without such a row this error is never raised. -/
theorem c7_unk_error_iff (file : List EmbLine) (vocab : List Str) :
    load_embeddings file vocab = .error .unkInEmbeddings ↔
      ∃ l ∈ file, l.word = UNK_TOKEN := by
  rw [load_embeddings_eq]
  by_cases hunk : ∃ l ∈ file, l.word = UNK_TOKEN
  · rw [if_pos hunk]
    simpa using hunk
  · rw [if_neg hunk]
    constructor
    · intro h
      exfalso
      unfold load_embeddings_rows at h
      by_cases h1 : (emb_rows file vocab).length ≠
          dict_size (UNK_TOKEN :: (emb_rows file vocab).map (fun l => l.word)) - 1
      · rw [if_pos h1] at h
        exact absurd h (by simp)
      · rw [if_neg h1] at h
        by_cases h2 : (emb_rows file vocab).any (fun l => decide (l.values.length ≠ 300))
        · rw [if_pos h2] at h
          exact absurd h (by simp)
        · rw [if_neg h2] at h
          exact absurd h (by simp)
    · intro hc
      exact absurd hc hunk

/-- C8: on every successful run of load_embeddings the matrix has
exactly one row per entry of the returned vocabulary, and row 0 is the
zero vector (300 zeros). -/
theorem c8_matrix_shape (file : List EmbLine) (vocab : List Str)
    (v : List Str) (m : List (List ℚ))
    (h : load_embeddings file vocab = .ok (v, m)) :
    m.length = v.length ∧ m.headD [] = List.replicate 300 (0 : ℚ) := by
  obtain ⟨hv, hm, _⟩ := load_embeddings_ok h
  constructor
  · rw [hv, hm]
    simp
  · rw [hm]
    rfl

/-- C8 witness: the theorem applied to the concrete embedding file and
vocabulary of the C1 development. -/
theorem c8_witness :
    ([List.replicate 300 (0 : ℚ), List.replicate 300 0] : List (List ℚ)).length =
      ([UNK_TOKEN, "good".toList] : List Str).length ∧
    ([List.replicate 300 (0 : ℚ), List.replicate 300 0] : List (List ℚ)).headD [] =
      List.replicate 300 (0 : ℚ) :=
  c8_matrix_shape cex_file (build_vocab [[cex_example]])
    [UNK_TOKEN, "good".toList] [List.replicate 300 0, List.replicate 300 0] (by rfl)

lemma mem_upsert (d : List (Str × Example Str)) (k : Str) (v : Example Str) :
    ∀ kv ∈ upsert d k v, kv = (k, v) ∨ kv ∈ d := by
  induction d with
  | nil =>
    intro kv hkv
    left
    simpa [upsert] using hkv
  | cons a rest ih =>
    intro kv hkv
    unfold upsert at hkv
    split_ifs at hkv with ha
    · rcases List.mem_cons.mp hkv with h | h
      · left; exact h
      · right; exact List.mem_cons_of_mem a h
    · rcases List.mem_cons.mp hkv with h | h
      · right; rw [h]; exact List.mem_cons_self a rest
      · rcases ih kv h with h2 | h2
        · left; exact h2
        · right; exact List.mem_cons_of_mem a h2

lemma load_dict_fold_mem (pids : List Str) :
    ∀ (suf : List (Str × Str)) (d0 : List (Str × Example Str)),
      ∀ kv ∈ suf.foldl
        (fun d l => if l.2 ∈ pids then upsert d l.2 (mk_example l.1 l.2) else d) d0,
        kv ∈ d0 ∨ ∃ l ∈ suf, kv = (l.2, mk_example l.1 l.2) := by
  intro suf
  induction suf with
  | nil => intro d0 kv hkv; left; exact hkv
  | cons l ls ih =>
    intro d0 kv hkv
    rw [List.foldl_cons] at hkv
    rcases ih _ kv hkv with h | h
    · by_cases hp : l.2 ∈ pids
      · rw [if_pos hp] at h
        rcases mem_upsert d0 l.2 (mk_example l.1 l.2) kv h with h2 | h2
        · right; exact ⟨l, List.mem_cons_self l ls, h2⟩
        · left; exact h2
      · rw [if_neg hp] at h
        left; exact h
    · rcases h with ⟨x, hx, hkv2⟩
      right; exact ⟨x, List.mem_cons_of_mem l hx, hkv2⟩

lemma load_dict_mem (dls : List (Str × Str)) (pids : List Str) :
    ∀ kv ∈ load_dict dls pids, ∃ l ∈ dls, kv = (l.2, mk_example l.1 l.2) := by
  intro kv hkv
  unfold load_dict at hkv
  rcases load_dict_fold_mem pids dls [] kv hkv with h | h
  · simp at h
  · exact h

lemma mem_set_label (d : List (Str × Example Str)) (k : Str) (lab : Nat) :
    ∀ kv ∈ set_label d k lab, ∃ kv0 ∈ d, kv.1 = kv0.1 ∧ kv.2.phrase = kv0.2.phrase ∧
      kv.2.tokens = kv0.2.tokens ∧ kv.2.example_id = kv0.2.example_id := by
  intro kv hkv
  unfold set_label at hkv
  rcases List.mem_map.mp hkv with ⟨kv0, hkv0, rfl⟩
  by_cases hk : kv0.1 = k
  · rw [if_pos hk]
    exact ⟨kv0, hkv0, rfl, rfl, rfl, rfl⟩
  · rw [if_neg hk]
    exact ⟨kv0, hkv0, rfl, rfl, rfl, rfl⟩

lemma apply_labels_mem : ∀ (ls : List (Str × ℚ)) (d d2 : List (Str × Example Str)),
    apply_labels d ls = .ok d2 →
    ∀ kv ∈ d2, ∃ kv0 ∈ d, kv.1 = kv0.1 ∧ kv.2.phrase = kv0.2.phrase ∧
      kv.2.tokens = kv0.2.tokens ∧ kv.2.example_id = kv0.2.example_id := by
  intro ls
  induction ls with
  | nil =>
    intro d d2 h kv hkv
    simp only [apply_labels, Except.ok.injEq] at h
    subst h
    exact ⟨kv, hkv, rfl, rfl, rfl, rfl⟩
  | cons pr rest ih =>
    intro d d2 h kv hkv
    obtain ⟨pid, s⟩ := pr
    unfold apply_labels at h
    rcases hs : sentiment2label s with _ | lab
    · rw [hs] at h
      exact absurd h (by simp)
    · rw [hs] at h
      obtain ⟨kv1, hkv1, he1, he2, he3, he4⟩ := ih (set_label d pid lab) d2 h kv hkv
      obtain ⟨kv0, hkv0, hf1, hf2, hf3, hf4⟩ := mem_set_label d pid lab kv1 hkv1
      exact ⟨kv0, hkv0, he1.trans hf1, he2.trans hf2, he3.trans hf3, he4.trans hf4⟩

lemma upsert_keys (d : List (Str × Example Str)) (k : Str) (v : Example Str) :
    (upsert d k v).map Prod.fst =
      if k ∈ d.map Prod.fst then d.map Prod.fst else d.map Prod.fst ++ [k] := by
  induction d with
  | nil => simp [upsert]
  | cons a rest ih =>
    unfold upsert
    by_cases ha : a.1 = k
    · rw [if_pos ha]
      simp only [List.map_cons]
      rw [if_pos (List.mem_cons.mpr (Or.inl ha.symm)), ha]
    · rw [if_neg ha]
      simp only [List.map_cons]
      rw [ih]
      by_cases hk : k ∈ rest.map Prod.fst
      · rw [if_pos hk, if_pos (List.mem_cons.mpr (Or.inr hk))]
      · rw [if_neg hk, if_neg (by
          intro hc
          rcases List.mem_cons.mp hc with h | h
          · exact ha h.symm
          · exact hk h)]
        rfl

lemma nodup_keys_upsert (d : List (Str × Example Str)) (k : Str) (v : Example Str)
    (h : (d.map Prod.fst).Nodup) : ((upsert d k v).map Prod.fst).Nodup := by
  rw [upsert_keys]
  split_ifs with hk
  · exact h
  · rw [List.nodup_append]
    refine ⟨h, List.nodup_singleton k, ?_⟩
    intro a ha hb
    rw [List.mem_singleton] at hb
    subst hb
    exact hk ha

lemma load_dict_keys_nodup (dls : List (Str × Str)) (pids : List Str) :
    ((load_dict dls pids).map Prod.fst).Nodup := by
  unfold load_dict
  exact foldl_preserves
    (fun d l => if l.2 ∈ pids then upsert d l.2 (mk_example l.1 l.2) else d)
    (fun d => (d.map Prod.fst).Nodup)
    (fun d l hd => by
      simp only []
      split_ifs with hp
      · exact nodup_keys_upsert d l.2 (mk_example l.1 l.2) hd
      · exact hd)
    dls [] (by simp)

lemma set_label_keys (d : List (Str × Example Str)) (k : Str) (lab : Nat) :
    (set_label d k lab).map Prod.fst = d.map Prod.fst := by
  unfold set_label
  rw [List.map_map]
  apply List.map_congr_left
  intro kv _
  by_cases hk : kv.1 = k
  · simp [hk]
  · simp [hk]

lemma apply_labels_keys : ∀ (ls : List (Str × ℚ)) (d d2 : List (Str × Example Str)),
    apply_labels d ls = .ok d2 → d2.map Prod.fst = d.map Prod.fst := by
  intro ls
  induction ls with
  | nil =>
    intro d d2 h
    simp only [apply_labels, Except.ok.injEq] at h
    subst h
    rfl
  | cons pr rest ih =>
    intro d d2 h
    obtain ⟨pid, s⟩ := pr
    unfold apply_labels at h
    rcases hs : sentiment2label s with _ | lab
    · rw [hs] at h
      exact absurd h (by simp)
    · rw [hs] at h
      rw [ih (set_label d pid lab) d2 h, set_label_keys]

lemma apply_labels_total : ∀ (ls : List (Str × ℚ)) (d : List (Str × Example Str)),
    (∀ pr ∈ ls, ∃ lab, sentiment2label pr.2 = some lab) →
    ∃ d2, apply_labels d ls = .ok d2 := by
  intro ls
  induction ls with
  | nil => intro d _; exact ⟨d, rfl⟩
  | cons pr rest ih =>
    intro d hall
    obtain ⟨pid, s⟩ := pr
    obtain ⟨lab, hlab⟩ := hall (pid, s) (List.mem_cons_self _ _)
    obtain ⟨d2, hd2⟩ := ih (set_label d pid lab)
      (fun pr hpr => hall pr (List.mem_cons_of_mem _ hpr))
    refine ⟨d2, ?_⟩
    unfold apply_labels
    rw [hlab]
    exact hd2

/-- Lookup of the example stored under a phrase id in the examples
dict (a proof device for reasoning about the dict fold; not part of the
source). -/
def lookup_key (d : List (Str × Example Str)) (k : Str) : Option (Example Str) :=
  match d with
  | [] => none
  | kv :: rest => if kv.1 = k then some kv.2 else lookup_key rest k

lemma lookup_key_upsert_self (d : List (Str × Example Str)) (k : Str) (v : Example Str) :
    lookup_key (upsert d k v) k = some v := by
  induction d with
  | nil => simp [upsert, lookup_key]
  | cons a rest ih =>
    unfold upsert
    by_cases ha : a.1 = k
    · rw [if_pos ha]
      unfold lookup_key
      rw [if_pos rfl]
    · rw [if_neg ha]
      unfold lookup_key
      rw [if_neg ha]
      exact ih

lemma lookup_key_upsert_ne (d : List (Str × Example Str)) (k : Str) (v : Example Str)
    (k2 : Str) (h : k ≠ k2) :
    lookup_key (upsert d k v) k2 = lookup_key d k2 := by
  induction d with
  | nil => simp [upsert, lookup_key, h]
  | cons a rest ih =>
    unfold upsert
    by_cases ha : a.1 = k
    · rw [if_pos ha]
      unfold lookup_key
      rw [if_neg h, if_neg (by rw [ha]; exact h)]
    · rw [if_neg ha]
      unfold lookup_key
      by_cases ha2 : a.1 = k2
      · rw [if_pos ha2, if_pos ha2]
      · rw [if_neg ha2, if_neg ha2]
        exact ih

lemma load_dict_concat (dls : List (Str × Str)) (l : Str × Str) (pids : List Str) :
    load_dict (dls ++ [l]) pids =
      if l.2 ∈ pids then upsert (load_dict dls pids) l.2 (mk_example l.1 l.2)
      else load_dict dls pids := by
  unfold load_dict
  rw [List.foldl_append]
  rfl

lemma load_dict_lookup (pids : List Str) (k : Str) (dls : List (Str × Str)) :
    lookup_key (load_dict dls pids) k =
      if k ∈ pids then
        ((dls.filter (fun pr => decide (pr.2 = k))).getLast?).map
          (fun l => mk_example l.1 l.2)
      else none := by
  induction dls using List.reverseRecOn with
  | nil =>
    simp [load_dict, lookup_key]
  | append_singleton dls l ih =>
    rw [load_dict_concat]
    by_cases hp : l.2 ∈ pids
    · rw [if_pos hp]
      by_cases hk : l.2 = k
      · subst hk
        rw [lookup_key_upsert_self, if_pos hp, List.filter_append]
        have hfl : [l].filter (fun pr => decide (pr.2 = l.2)) = [l] := by simp
        rw [hfl, List.getLast?_concat]
        rfl
      · rw [lookup_key_upsert_ne _ _ _ _ hk, ih, List.filter_append]
        have hfl : [l].filter (fun pr => decide (pr.2 = k)) = [] := by simp [hk]
        rw [hfl, List.append_nil]
    · rw [if_neg hp, ih]
      by_cases hk : l.2 = k
      · rw [if_neg (hk ▸ hp), if_neg (hk ▸ hp)]
      · rw [List.filter_append]
        have hfl : [l].filter (fun pr => decide (pr.2 = k)) = [] := by simp [hk]
        rw [hfl, List.append_nil]

lemma lookup_key_of_mem (d : List (Str × Example Str))
    (hnd : (d.map Prod.fst).Nodup) (kv : Str × Example Str) (hkv : kv ∈ d) :
    lookup_key d kv.1 = some kv.2 := by
  induction d with
  | nil => simp at hkv
  | cons a rest ih =>
    simp only [List.map_cons, List.nodup_cons] at hnd
    rcases List.mem_cons.mp hkv with h | h
    · subst h
      unfold lookup_key
      rw [if_pos rfl]
    · unfold lookup_key
      have ha : a.1 ≠ kv.1 := by
        intro he
        exact hnd.1 (he ▸ List.mem_map.mpr ⟨kv, h, rfl⟩)
      rw [if_neg ha]
      exact ih hnd.2 h

lemma load_dict_coh (dls : List (Str × Str)) (pids : List Str) :
    ∀ kv ∈ load_dict dls pids, kv.2.example_id = kv.1 := by
  intro kv hkv
  obtain ⟨l, _, rfl⟩ := load_dict_mem dls pids kv hkv
  rfl

lemma read_dict_none_eq (dls : List (Str × Str)) (pids : List Str) :
    read_dictionary_txt_with_phrase_ids dls pids none =
      .ok ((load_dict dls pids).map (fun kv => kv.2)) := rfl

lemma read_dict_some_eq (dls : List (Str × Str)) (pids : List Str)
    (ls : List (Str × ℚ)) :
    read_dictionary_txt_with_phrase_ids dls pids (some ls) =
      match apply_labels (load_dict dls pids) ls with
      | .error e => .error e
      | .ok d2 => .ok (d2.map (fun kv => kv.2)) := rfl

lemma read_dict_ok_shape {dls : List (Str × Str)} {pids : List Str}
    {labels : Option (List (Str × ℚ))} {exs : List (Example Str)}
    (h : read_dictionary_txt_with_phrase_ids dls pids labels = .ok exs) :
    ∃ d2 : List (Str × Example Str), exs = d2.map (fun kv => kv.2) ∧
      d2.map Prod.fst = (load_dict dls pids).map Prod.fst ∧
      ∀ kv ∈ d2, ∃ kv0 ∈ load_dict dls pids, kv.1 = kv0.1 ∧
        kv.2.phrase = kv0.2.phrase ∧ kv.2.tokens = kv0.2.tokens ∧
        kv.2.example_id = kv0.2.example_id := by
  cases labels with
  | none =>
    rw [read_dict_none_eq] at h
    simp only [Except.ok.injEq] at h
    exact ⟨load_dict dls pids, h.symm, rfl,
      fun kv hkv => ⟨kv, hkv, rfl, rfl, rfl, rfl⟩⟩
  | some ls =>
    rw [read_dict_some_eq] at h
    rcases hap : apply_labels (load_dict dls pids) ls with e | d2
    · rw [hap] at h
      exact absurd h (by simp)
    · rw [hap] at h
      simp only [Except.ok.injEq] at h
      exact ⟨d2, h.symm, apply_labels_keys ls _ d2 hap,
        apply_labels_mem ls _ d2 hap⟩

/-- C9: every example the data loader produces has as token sequence
exactly the result of replacing every left parenthesis by -LRB and
every right parenthesis by -RRB- in the raw phrase of one of the
dictionary lines carrying its id, and then splitting on the space
character. -/
theorem c9_tokens_escape_split (dls : List (Str × Str)) (pids : List Str)
    (labels : Option (List (Str × ℚ))) (exs : List (Example Str))
    (h : read_dictionary_txt_with_phrase_ids dls pids labels = .ok exs) :
    ∀ ex ∈ exs, ∃ p, (p, ex.example_id) ∈ dls ∧
      ex.tokens = splitOnSpace (escapeParens p) ∧
      ex.phrase = escapeParens p := by
  intro ex hex
  obtain ⟨d2, rfl, hkeys, hmem2⟩ := read_dict_ok_shape h
  rcases List.mem_map.mp hex with ⟨kv, hkv, rfl⟩
  obtain ⟨kv0, hkv0, hk1, hp, ht, hid⟩ := hmem2 kv hkv
  obtain ⟨l, hl, rfl⟩ := load_dict_mem dls pids kv0 hkv0
  refine ⟨l.1, ?_, ?_, ?_⟩
  · have hkey : kv.2.example_id = l.2 := hid
    rw [hkey]
    exact hl
  · exact ht
  · exact hp

def c9_dls : List (Str × Str) := [("bad movie".toList, "2".toList)]

def c9_ex : Example Str := mk_example ("bad movie".toList) ("2".toList)

/-- C9 witness: the theorem applied to a one-line dictionary. -/
theorem c9_witness :
    ∃ p, (p, c9_ex.example_id) ∈ c9_dls ∧
      c9_ex.tokens = splitOnSpace (escapeParens p) ∧
      c9_ex.phrase = escapeParens p :=
  c9_tokens_escape_split c9_dls ["2".toList] none [c9_ex] (by rfl) c9_ex
    (List.mem_singleton.mpr rfl)

/-- C10: the loader returns at most one example per phrase id (the ids
of the returned examples are pairwise distinct); when several permitted
dictionary lines share a phrase id, the example's phrase comes from the
last such line; and label lines whose phrase id matches no loaded
example never cause an error: whenever every label line has an
in-range score the loader succeeds, whatever ids the label lines
carry. -/
theorem c10_read_dictionary_dict_semantics :
    (∀ (dls : List (Str × Str)) (pids : List Str)
        (labels : Option (List (Str × ℚ))) (exs : List (Example Str)),
      read_dictionary_txt_with_phrase_ids dls pids labels = .ok exs →
      (exs.map (fun ex => ex.example_id)).Nodup) ∧
    (∀ (dls : List (Str × Str)) (pids : List Str)
        (labels : Option (List (Str × ℚ))) (exs : List (Example Str)),
      read_dictionary_txt_with_phrase_ids dls pids labels = .ok exs →
      ∀ ex ∈ exs, ∃ l,
        (dls.filter (fun pr => decide (pr.2 = ex.example_id))).getLast? = some l ∧
        ex.phrase = escapeParens l.1) ∧
    (∀ (dls : List (Str × Str)) (pids : List Str) (ls : List (Str × ℚ)),
      (∀ pr ∈ ls, ∃ lab, sentiment2label pr.2 = some lab) →
      ∃ exs, read_dictionary_txt_with_phrase_ids dls pids (some ls) = .ok exs) := by
  refine ⟨?_, ?_, ?_⟩
  · intro dls pids labels exs h
    obtain ⟨d2, rfl, hkeys, hmem2⟩ := read_dict_ok_shape h
    have hcoh : ∀ kv ∈ d2, kv.2.example_id = kv.1 := by
      intro kv hkv
      obtain ⟨kv0, hkv0, hk1, _, _, hid⟩ := hmem2 kv hkv
      rw [hid, load_dict_coh dls pids kv0 hkv0]
      exact hk1.symm
    have hmapm : (d2.map (fun kv => kv.2)).map (fun ex => ex.example_id) =
        d2.map Prod.fst := by
      rw [List.map_map]
      exact List.map_congr_left hcoh
    rw [hmapm, hkeys]
    exact load_dict_keys_nodup dls pids
  · intro dls pids labels exs h ex hex
    obtain ⟨d2, rfl, hkeys, hmem2⟩ := read_dict_ok_shape h
    rcases List.mem_map.mp hex with ⟨kv, hkv, rfl⟩
    obtain ⟨kv0, hkv0, hk1, hp, _, hid⟩ := hmem2 kv hkv
    have hnd := load_dict_keys_nodup dls pids
    have hlk : lookup_key (load_dict dls pids) kv0.1 = some kv0.2 :=
      lookup_key_of_mem _ hnd kv0 hkv0
    rw [load_dict_lookup] at hlk
    by_cases hpk : kv0.1 ∈ pids
    · rw [if_pos hpk] at hlk
      rcases hlast : (dls.filter (fun pr => decide (pr.2 = kv0.1))).getLast? with _ | l
      · rw [hlast] at hlk
        exact absurd hlk (by simp)
      · rw [hlast] at hlk
        simp only [Option.map_some', Option.some.injEq] at hlk
        refine ⟨l, ?_, ?_⟩
        · have hkey : kv.2.example_id = kv0.1 := by
            rw [hid]
            exact load_dict_coh dls pids kv0 hkv0
          rw [hkey]
          exact hlast
        · rw [hp, ← hlk]
          rfl
    · rw [if_neg hpk] at hlk
      exact absurd hlk (by simp)
  · intro dls pids ls hall
    obtain ⟨d2, hd2⟩ := apply_labels_total ls (load_dict dls pids) hall
    refine ⟨d2.map (fun kv => kv.2), ?_⟩
    rw [read_dict_some_eq, hd2]

def c10_dls : List (Str × Str) :=
  [("good".toList, "1".toList), ("fine".toList, "1".toList)]

def c10_pids : List Str := ["1".toList]

/-- C10 witness: the theorem applied to a dictionary with a duplicated
phrase id and to a label file whose single line matches no example. -/
theorem c10_witness :
    (([mk_example ("fine".toList) ("1".toList)].map (fun ex => ex.example_id)).Nodup) ∧
    (∃ l, (c10_dls.filter (fun pr =>
        decide (pr.2 = (mk_example ("fine".toList) ("1".toList)).example_id))).getLast? =
          some l ∧
      (mk_example ("fine".toList) ("1".toList)).phrase = escapeParens l.1) ∧
    (∃ exs, read_dictionary_txt_with_phrase_ids c10_dls c10_pids
      (some [("9".toList, 1/2)]) = .ok exs) := by
  refine ⟨?_, ?_, ?_⟩
  · exact c10_read_dictionary_dict_semantics.1 c10_dls c10_pids none _ (by rfl)
  · exact c10_read_dictionary_dict_semantics.2.1 c10_dls c10_pids none _ (by rfl) _
      (List.mem_singleton.mpr rfl)
  · refine c10_read_dictionary_dict_semantics.2.2 c10_dls c10_pids _ ?_
    intro pr hpr
    rw [List.mem_singleton] at hpr
    subst hpr
    exact ⟨2, by norm_num [sentiment2label]⟩
